import Mathlib

/-!
Verification of the credential-acquisition scripts of this repository
(ms_oauth_cache.py, msal.py, xbox_tokens_device_code.py) against their
specification.  The Python code is shallowly embedded: token strings are
modelled as byte sequences (`List Nat`), which matches Python `str` content
byte for byte on the ASCII tokens these scripts handle; network traffic is
modelled by response oracles supplied as functions; wall-clock time advances
only through the modelled `time.sleep` calls.
-/

namespace GameCompare

/-- Byte strings: the content of a Python `str`/`bytes` value at byte level. -/
abbrev Bytes := List Nat

/-- ASCII hex-digit test used by percent-decoding (0-9, A-F, a-f). -/
def isHexByte (c : Nat) : Bool :=
  (48 ≤ c && c ≤ 57) || (65 ≤ c && c ≤ 70) || (97 ≤ c && c ≤ 102)

/-- Numeric value of an ASCII hex digit byte. -/
def hexVal (c : Nat) : Nat :=
  if c ≤ 57 then c - 48 else if c ≤ 70 then c - 55 else c - 87

/-- urllib.parse.unquote at byte level: a percent sign followed by two hex
digits decodes to the corresponding byte; any other byte passes through
unchanged (Python leaves invalid escapes literal). -/
def unquote : Bytes → Bytes
  | 37 :: a :: b :: rest =>
    if isHexByte a && isHexByte b then (hexVal a * 16 + hexVal b) :: unquote rest
    else 37 :: unquote (a :: b :: rest)
  | c :: rest => c :: unquote rest
  | [] => []

/-- Bytes left unescaped by urllib.parse.quote when the safe set is empty:
ASCII letters, digits, underscore, dot, hyphen, tilde. -/
def isAlwaysSafe (c : Nat) : Bool :=
  (65 ≤ c && c ≤ 90) || (97 ≤ c && c ≤ 122) || (48 ≤ c && c ≤ 57) ||
    c == 95 || c == 46 || c == 45 || c == 126

/-- Upper-case hex digit byte for a value below 16. -/
def hexUpper (n : Nat) : Nat := if n < 10 then 48 + n else 55 + n

/-- pct_encode from xbox_tokens_device_code.py: quote with an empty safe set,
so every byte outside the always-safe set becomes a percent escape. -/
def pct_encode (s : Bytes) : Bytes :=
  s.flatMap fun c =>
    if isAlwaysSafe c then [c] else [37, hexUpper (c / 16), hexUpper (c % 16)]

/-- Python truthiness fallback `x or y` for an optional byte string: an absent
or empty left operand yields the right operand. -/
def pyOrBytes : Option Bytes → Bytes → Bytes
  | some r, d => if r = [] then d else r
  | none, d => d

/-- The add helper inside xbl_user_authenticate: skip falsy (empty) tickets,
otherwise append the labelled ticket. -/
def addTicket (acc : List (String × Bytes)) (label : String) (t : Bytes) :
    List (String × Bytes) :=
  if t = [] then acc else acc ++ [(label, t)]

/-- The six labelled base forms of the bearer token, in source order: decoded,
raw fragment (defaulting to the decoded token), percent-decoded raw fragment,
then the fully percent-encoded version of each. -/
def candidateBases (dec : Bytes) (raw : Option Bytes) : List (String × Bytes) :=
  let decoded := dec
  let raw_fragment := pyOrBytes raw dec
  let raw_fragment_decoded := unquote raw_fragment
  [("decoded", decoded), ("rawfrag", raw_fragment),
   ("rawfrag_decoded", raw_fragment_decoded),
   ("decoded_enc", pct_encode decoded),
   ("rawfrag_enc", pct_encode raw_fragment),
   ("rawfrag_decoded_enc", pct_encode raw_fragment_decoded)]

/-- The tickets list built by xbl_user_authenticate before de-duplication:
the six bases (empty ones skipped by add), then for each base its d= and t=
prefixed forms, in source order (100 and 116 are the bytes of d and t, 61 is
the equals sign). -/
def preTickets (dec : Bytes) (raw : Option Bytes) : List (String × Bytes) :=
  let bases := candidateBases dec raw
  let plain := bases.foldl (fun acc p => addTicket acc p.1 p.2) []
  bases.foldl
    (fun acc p =>
      addTicket (addTicket acc ("d=" ++ p.1) (100 :: 61 :: p.2))
        ("t=" ++ p.1) (116 :: 61 :: p.2)) plain

/-- The de-duplication loop at the end of candidate construction: drop a
ticket whose encoded value was already seen, keeping the first occurrence and
preserving order. -/
def dedupTickets : List (String × Bytes) → List Bytes → List (String × Bytes)
  | [], _ => []
  | p :: rest, seen =>
    if p.2 ∈ seen then dedupTickets rest seen
    else p :: dedupTickets rest (p.2 :: seen)

/-- CandidateEncoder: the ordered, de-duplicated candidate-ticket sequence
produced inside xbl_user_authenticate. -/
def candidateTickets (dec : Bytes) (raw : Option Bytes) : List (String × Bytes) :=
  dedupTickets (preTickets dec raw) []

theorem dedupTickets_sublist :
    ∀ (l : List (String × Bytes)) (seen : List Bytes),
      (dedupTickets l seen).Sublist l
  | [], _ => List.Sublist.slnil
  | p :: rest, seen => by
    simp only [dedupTickets]
    split
    · exact (dedupTickets_sublist rest seen).cons p
    · exact (dedupTickets_sublist rest (p.2 :: seen)).cons₂ p

theorem dedupTickets_first_occurrence :
    ∀ (l : List (String × Bytes)) (seen : List Bytes) (q : String × Bytes),
      q ∈ dedupTickets l seen →
      q.2 ∉ seen ∧ l.find? (fun p => p.2 == q.2) = some q := by
  intro l
  induction l with
  | nil => intro seen q hq; simp [dedupTickets] at hq
  | cons p rest ih =>
    intro seen q hq
    simp only [dedupTickets] at hq
    by_cases hmem : p.2 ∈ seen
    · rw [if_pos hmem] at hq
      obtain ⟨hns, hfind⟩ := ih seen q hq
      refine ⟨hns, ?_⟩
      rw [List.find?_cons_of_neg, hfind]
      simp only [beq_iff_eq]
      intro hval
      exact hns (hval ▸ hmem)
    · rw [if_neg hmem] at hq
      rcases List.mem_cons.1 hq with rfl | hq
      · refine ⟨hmem, ?_⟩
        rw [List.find?_cons_of_pos]
        all_goals simp
      · obtain ⟨hns, hfind⟩ := ih (p.2 :: seen) q hq
        have hne : p.2 ≠ q.2 := fun h => hns (by simp [← h])
        refine ⟨fun h => hns (List.mem_cons_of_mem _ h), ?_⟩
        rw [List.find?_cons_of_neg, hfind]
        simp only [beq_iff_eq]
        exact hne

theorem dedupTickets_values_nodup :
    ∀ (l : List (String × Bytes)) (seen : List Bytes),
      ((dedupTickets l seen).map Prod.snd).Nodup := by
  intro l
  induction l with
  | nil => intro seen; simp [dedupTickets]
  | cons p rest ih =>
    intro seen
    simp only [dedupTickets]
    split
    · exact ih seen
    · rw [List.map_cons, List.nodup_cons]
      refine ⟨fun hmem => ?_, ih (p.2 :: seen)⟩
      obtain ⟨q, hq, hval⟩ := List.mem_map.1 hmem
      exact (dedupTickets_first_occurrence _ _ q hq).1 (by simp [hval])

theorem dedupTickets_covers :
    ∀ (l : List (String × Bytes)) (seen : List Bytes) (p : String × Bytes),
      p ∈ l → p.2 ∉ seen → p.2 ∈ (dedupTickets l seen).map Prod.snd := by
  intro l
  induction l with
  | nil => intro seen p hp; simp at hp
  | cons x rest ih =>
    intro seen p hp hns
    simp only [dedupTickets]
    rcases List.mem_cons.1 hp with rfl | hp
    · rw [if_neg hns]
      simp
    · by_cases hx : x.2 ∈ seen
      · rw [if_pos hx]
        exact ih seen p hp hns
      · rw [if_neg hx]
        by_cases hpx : p.2 = x.2
        · simp [hpx]
        · rw [List.map_cons, List.mem_cons]
          exact Or.inr (ih (x.2 :: seen) p hp (by simp [hpx, hns]))

theorem addTicket_eq_append (acc : List (String × Bytes)) (label : String)
    (t : Bytes) :
    addTicket acc label t = acc ++ (if t = [] then [] else [(label, t)]) := by
  unfold addTicket
  split <;> simp_all

theorem mem_addTicket {acc : List (String × Bytes)} {label : String} {t : Bytes}
    {p : String × Bytes} (h : p ∈ addTicket acc label t) :
    p ∈ acc ∨ (t ≠ [] ∧ p = (label, t)) := by
  rw [addTicket_eq_append] at h
  rcases List.mem_append.1 h with h | h
  · exact Or.inl h
  · split at h <;> simp_all

theorem foldl_extends {β : Type} (step : List (String × Bytes) → β → List (String × Bytes))
    (hstep : ∀ a p, ∃ e, step a p = a ++ e) :
    ∀ (l : List β) (acc : List (String × Bytes)), ∃ e, l.foldl step acc = acc ++ e := by
  intro l
  induction l with
  | nil => intro acc; exact ⟨[], by simp⟩
  | cons b rest ih =>
    intro acc
    obtain ⟨e1, he1⟩ := hstep acc b
    obtain ⟨e2, he2⟩ := ih (step acc b)
    exact ⟨e1 ++ e2, by rw [List.foldl_cons, he2, he1, List.append_assoc]⟩

theorem plainFold_values_ne_nil :
    ∀ (bases : List (String × Bytes)) (acc : List (String × Bytes)),
      (∀ p ∈ acc, p.2 ≠ []) →
      ∀ p ∈ bases.foldl (fun acc p => addTicket acc p.1 p.2) acc, p.2 ≠ [] := by
  intro bases
  induction bases with
  | nil => intro acc hacc p hp; exact hacc p hp
  | cons b rest ih =>
    intro acc hacc p hp
    refine ih (addTicket acc b.1 b.2) ?_ p hp
    intro q hq
    rcases mem_addTicket hq with hq | ⟨hb, rfl⟩
    · exact hacc q hq
    · exact hb

theorem prefFold_values_ne_nil :
    ∀ (bases : List (String × Bytes)) (acc : List (String × Bytes)),
      (∀ p ∈ acc, p.2 ≠ []) →
      ∀ p ∈ bases.foldl
          (fun acc p =>
            addTicket (addTicket acc ("d=" ++ p.1) (100 :: 61 :: p.2))
              ("t=" ++ p.1) (116 :: 61 :: p.2)) acc, p.2 ≠ [] := by
  intro bases
  induction bases with
  | nil => intro acc hacc p hp; exact hacc p hp
  | cons b rest ih =>
    intro acc hacc p hp
    refine ih _ ?_ p hp
    intro q hq
    rcases mem_addTicket hq with hq | ⟨_, rfl⟩
    · rcases mem_addTicket hq with hq | ⟨_, rfl⟩
      · exact hacc q hq
      · simp
    · simp

theorem preTickets_values_ne_nil (dec : Bytes) (raw : Option Bytes) :
    ∀ p ∈ preTickets dec raw, p.2 ≠ [] := by
  intro p hp
  unfold preTickets at hp
  exact prefFold_values_ne_nil _ _
    (plainFold_values_ne_nil _ _ (by intro q hq; simp at hq)) p hp

theorem addTicket_cons (x : String × Bytes) (a : List (String × Bytes))
    (label : String) (t : Bytes) :
    ∃ e, addTicket (x :: a) label t = x :: e := by
  rw [addTicket_eq_append]
  exact ⟨_, rfl⟩

theorem addTicket_cons_val (acc : List (String × Bytes)) (label : String)
    (c : Nat) (t : Bytes) :
    addTicket acc label (c :: t) = acc ++ [(label, c :: t)] := by
  rw [addTicket_eq_append, if_neg (List.cons_ne_nil c t)]

theorem preTickets_head (dec : Bytes) (raw : Option Bytes) (hdec : dec ≠ []) :
    ∃ rest, preTickets dec raw = ("decoded", dec) :: rest := by
  have hstep2 : ∀ (a : List (String × Bytes)) (p : String × Bytes),
      ∃ e, addTicket (addTicket a ("d=" ++ p.1) (100 :: 61 :: p.2))
          ("t=" ++ p.1) (116 :: 61 :: p.2) = a ++ e := by
    intro a p
    exact ⟨[("d=" ++ p.1, 100 :: 61 :: p.2), ("t=" ++ p.1, 116 :: 61 :: p.2)], by
      simp [addTicket_cons_val]⟩
  have hplain : ∃ e, (candidateBases dec raw).foldl
      (fun acc p => addTicket acc p.1 p.2) [] = ("decoded", dec) :: e := by
    simp only [candidateBases]
    simp only [List.foldl_cons, List.foldl_nil]
    rw [show addTicket [] "decoded" dec = ("decoded", dec) :: [] by
      rw [addTicket_eq_append, if_neg hdec]; rfl]
    obtain ⟨a1, h1⟩ := addTicket_cons ("decoded", dec) [] "rawfrag" (pyOrBytes raw dec)
    rw [h1]
    obtain ⟨a2, h2⟩ := addTicket_cons ("decoded", dec) a1 "rawfrag_decoded"
      (unquote (pyOrBytes raw dec))
    rw [h2]
    obtain ⟨a3, h3⟩ := addTicket_cons ("decoded", dec) a2 "decoded_enc" (pct_encode dec)
    rw [h3]
    obtain ⟨a4, h4⟩ := addTicket_cons ("decoded", dec) a3 "rawfrag_enc"
      (pct_encode (pyOrBytes raw dec))
    rw [h4]
    obtain ⟨a5, h5⟩ := addTicket_cons ("decoded", dec) a4 "rawfrag_decoded_enc"
      (pct_encode (unquote (pyOrBytes raw dec)))
    rw [h5]
    exact ⟨a5, rfl⟩
  obtain ⟨e2, he2⟩ := foldl_extends _ hstep2 (candidateBases dec raw)
    ((candidateBases dec raw).foldl (fun acc p => addTicket acc p.1 p.2) [])
  obtain ⟨e1, he1⟩ := hplain
  refine ⟨e1 ++ e2, ?_⟩
  simp only [preTickets]
  rw [he2, he1]
  rfl

theorem preTickets_find_decoded (dec : Bytes) (raw : Option Bytes) (hdec : dec ≠ []) :
    (preTickets dec raw).find? (fun p => p.2 == dec) = some ("decoded", dec) := by
  obtain ⟨rest, hre⟩ := preTickets_head dec raw hdec
  rw [hre, List.find?_cons_of_pos]
  simp

/-- C2: for every pair of inputs (decoded token, optional raw token) the
candidate-ticket enumeration is a pure deterministic function: it equals the
de-duplication (first occurrence kept, order preserved) of the ordered
pre-ticket list that covers the decoded form, the raw form, the raw form with
percent escapes removed, the fully re-encoded versions of those three, and
each of the six additionally prefixed with d= and t=; the output values carry
no duplicates, the output is an order-preserving subsequence of the pre-ticket
list, every pre-ticket value still occurs, and each surviving ticket is the
first pre-ticket bearing its value. -/
theorem candidate_enumeration_dedup_first_occurrence (dec : Bytes)
    (raw : Option Bytes) :
    (∀ dec2 raw2, dec2 = dec → raw2 = raw →
        candidateTickets dec2 raw2 = candidateTickets dec raw) ∧
    candidateTickets dec raw = dedupTickets (preTickets dec raw) [] ∧
    ((candidateTickets dec raw).map Prod.snd).Nodup ∧
    (candidateTickets dec raw).Sublist (preTickets dec raw) ∧
    (∀ p ∈ preTickets dec raw, p.2 ∈ (candidateTickets dec raw).map Prod.snd) ∧
    (∀ q ∈ candidateTickets dec raw,
      (preTickets dec raw).find? (fun p => p.2 == q.2) = some q) := by
  refine ⟨fun a b h1 h2 => by rw [h1, h2], rfl, dedupTickets_values_nodup _ _,
    dedupTickets_sublist _ _, ?_, ?_⟩
  · intro p hp
    exact dedupTickets_covers _ _ p hp (by simp)
  · intro q hq
    exact (dedupTickets_first_occurrence _ _ q hq).2

theorem candidate_enumeration_dedup_first_occurrence_w :
    ("decoded", ([97] : Bytes)) ∈ preTickets [97] none ∧
    ([97] : Bytes) ∈ (candidateTickets [97] none).map Prod.snd := by
  have hmem : ("decoded", ([97] : Bytes)) ∈ preTickets [97] none := by
    obtain ⟨rest, hre⟩ := preTickets_head [97] none (by decide)
    rw [hre]
    exact List.mem_cons_self _ _
  exact ⟨hmem,
    (candidate_enumeration_dedup_first_occurrence [97] none).2.2.2.2.1 _ hmem⟩

/-- C10: when no separate raw token is supplied the enumeration coincides with
the one where the raw form is exactly the decoded token; for a non-empty token
the decoded and raw plain candidates collapse to the single decoded entry
(the unique output ticket carrying that value); and every emitted candidate
has a non-empty encoded value. -/
theorem candidate_raw_defaults_to_decoded (dec : Bytes) :
    candidateTickets dec none = candidateTickets dec (some dec) ∧
    (dec ≠ [] →
      ("decoded", dec) ∈ candidateTickets dec none ∧
      ∀ q ∈ candidateTickets dec none, q.2 = dec → q = ("decoded", dec)) ∧
    (∀ q ∈ candidateTickets dec none, q.2 ≠ []) := by
  refine ⟨?_, fun hdec => ⟨?_, ?_⟩, ?_⟩
  · simp [candidateTickets, preTickets, candidateBases, pyOrBytes]
  · have hmem : ("decoded", dec) ∈ preTickets dec none := by
      obtain ⟨rest, hre⟩ := preTickets_head dec none hdec
      rw [hre]; exact List.mem_cons_self _ _
    have hval := dedupTickets_covers (preTickets dec none) [] _ hmem (by simp)
    obtain ⟨q, hq, hqv⟩ := List.mem_map.1 hval
    have hfind := (dedupTickets_first_occurrence (preTickets dec none) [] q hq).2
    rw [show q.2 = dec from hqv, preTickets_find_decoded dec none hdec] at hfind
    have heq : ("decoded", dec) = q := Option.some_injective _ hfind
    show ("decoded", dec) ∈ candidateTickets dec none
    rw [heq]
    exact hq
  · intro q hq hqv
    have hfind := (dedupTickets_first_occurrence (preTickets dec none) [] q hq).2
    rw [hqv, preTickets_find_decoded dec none hdec] at hfind
    exact (Option.some_injective _ hfind).symm
  · intro q hq
    have hsub : q ∈ preTickets dec none :=
      List.Sublist.subset (dedupTickets_sublist (preTickets dec none) []) hq
    exact preTickets_values_ne_nil dec none q hsub

theorem candidate_raw_defaults_to_decoded_w :
    ([97] : Bytes) ≠ [] ∧
    ("decoded", ([97] : Bytes)) ∈ candidateTickets [97] none ∧
    candidateTickets [97] none = candidateTickets [97] (some [97]) :=
  ⟨by decide, ((candidate_raw_defaults_to_decoded [97]).2.1 (by decide)).1,
    (candidate_raw_defaults_to_decoded [97]).1⟩

/-- The fixed relying-party list of xbl_user_authenticate, most-likely first. -/
def relying_parties : List String :=
  ["http://auth.xboxlive.com", "https://auth.xboxlive.com"]

/-- One combination of the exchange matrix: relying party, contract-header
flag, and a labelled candidate ticket. -/
structure XblCombo where
  relying_party : String
  with_contract : Bool
  label : String
  rps_ticket : Bytes
deriving DecidableEq

/-- Record of one failed exchange attempt, as appended to the attempts list. -/
structure XblAttempt where
  label : String
  relying_party : String
  with_contract : Bool
  status : Nat
deriving DecidableEq

/-- Outcome of xbl_user_authenticate: the successful response (identified by
how many requests were issued and by the winning combination), or the raised
failure carrying the ordered attempts and the digest actually reported (the
first twelve attempts). -/
inductive XblResult where
  | success (requests : Nat) (winner : XblCombo)
  | failure (attempts : List XblAttempt) (digest : List XblAttempt)
deriving DecidableEq

/-- The full combination list in iteration order: relying parties outermost,
then the contract header present before absent, then the de-duplicated
candidate tickets innermost. -/
def xblCombos (dec : Bytes) (raw : Option Bytes) : List XblCombo :=
  relying_parties.flatMap fun rp =>
    [true, false].flatMap fun wc =>
      (candidateTickets dec raw).map fun p => ⟨rp, wc, p.1, p.2⟩

/-- The attempt record appended for a failed request. -/
def mkAttempt (c : XblCombo) (st : Nat) : XblAttempt :=
  ⟨c.label, c.relying_party, c.with_contract, st⟩

/-- The sequential request loop of xbl_user_authenticate: the oracle gives
the HTTP status of the n-th request issued; a 200 returns immediately, any
other status is recorded and the next combination is tried; exhaustion raises
with the digest of the first twelve attempts. -/
def xblLoop (oracle : Nat → Nat) : List XblCombo → Nat → List XblAttempt → XblResult
  | [], _, attempts => .failure attempts (attempts.take 12)
  | c :: rest, n, attempts =>
    if oracle n = 200 then .success (n + 1) c
    else xblLoop oracle rest (n + 1) (attempts ++ [mkAttempt c (oracle n)])

/-- PlatformUserExchanger: run the whole matrix for the given bearer token. -/
def xbl_user_authenticate (oracle : Nat → Nat) (dec : Bytes)
    (raw : Option Bytes) : XblResult :=
  xblLoop oracle (xblCombos dec raw) 0 []

/-- The ordered attempt records produced when requests starting at index n all
fail over the given combination list. -/
def attemptsFrom (oracle : Nat → Nat) : Nat → List XblCombo → List XblAttempt
  | _, [] => []
  | n, c :: rest => mkAttempt c (oracle n) :: attemptsFrom oracle (n + 1) rest

theorem xblLoop_success (oracle : Nat → Nat) :
    ∀ (combos : List XblCombo) (k n : Nat) (acc : List XblAttempt),
      k < combos.length → oracle (n + k) = 200 →
      (∀ j < k, oracle (n + j) ≠ 200) →
      ∃ c, combos[k]? = some c ∧ xblLoop oracle combos n acc = .success (n + k + 1) c := by
  intro combos
  induction combos with
  | nil => intro k n acc hk; simp at hk
  | cons c rest ih =>
    intro k n acc hk h200 hbefore
    match k with
    | 0 =>
      refine ⟨c, by simp, ?_⟩
      simp only [xblLoop]
      rw [if_pos (by simpa using h200)]
    | k + 1 =>
      have hn : oracle n ≠ 200 := by simpa using hbefore 0 (Nat.succ_pos k)
      obtain ⟨cw, hcw, hrun⟩ := ih k (n + 1) (acc ++ [mkAttempt c (oracle n)])
        (by simpa using hk) (by rw [show n + 1 + k = n + (k + 1) by omega]; exact h200)
        (fun j hj => by
          rw [show n + 1 + j = n + (j + 1) by omega]
          exact hbefore (j + 1) (by omega))
      refine ⟨cw, by simpa using hcw, ?_⟩
      simp only [xblLoop]
      rw [if_neg hn, hrun, show n + 1 + k + 1 = n + (k + 1) + 1 by omega]

theorem xblLoop_failure (oracle : Nat → Nat) :
    ∀ (combos : List XblCombo) (n : Nat) (acc : List XblAttempt),
      (∀ j < combos.length, oracle (n + j) ≠ 200) →
      xblLoop oracle combos n acc =
        .failure (acc ++ attemptsFrom oracle n combos)
          ((acc ++ attemptsFrom oracle n combos).take 12) := by
  intro combos
  induction combos with
  | nil => intro n acc _; simp [xblLoop, attemptsFrom]
  | cons c rest ih =>
    intro n acc hfail
    have hn : oracle n ≠ 200 := by simpa using hfail 0 (by simp)
    simp only [xblLoop]
    rw [if_neg hn, ih (n + 1) (acc ++ [mkAttempt c (oracle n)])
      (fun j hj => by
        rw [show n + 1 + j = n + (j + 1) by omega]
        exact hfail (j + 1) (by simpa using hj))]
    simp [attemptsFrom]

theorem attemptsFrom_length (oracle : Nat → Nat) :
    ∀ (combos : List XblCombo) (n : Nat),
      (attemptsFrom oracle n combos).length = combos.length := by
  intro combos
  induction combos with
  | nil => intro n; rfl
  | cons c rest ih => intro n; simp [attemptsFrom, ih]

theorem attemptsFrom_get (oracle : Nat → Nat) :
    ∀ (combos : List XblCombo) (n i : Nat) (c : XblCombo),
      combos[i]? = some c →
      (attemptsFrom oracle n combos)[i]? = some (mkAttempt c (oracle (n + i))) := by
  intro combos
  induction combos with
  | nil => intro n i c hc; simp at hc
  | cons x rest ih =>
    intro n i c hc
    match i with
    | 0 =>
      simp only [List.getElem?_cons_zero, Option.some.injEq] at hc
      simp [attemptsFrom, hc]
    | i + 1 =>
      simp only [List.getElem?_cons_succ] at hc
      have := ih (n + 1) i c hc
      simpa [attemptsFrom, show n + 1 + i = n + (i + 1) by omega] using this

/-- C1: requests are issued iterating relying parties outermost, then the
contract header present before absent, then the candidate tickets innermost
(so the combination list decomposes into the four ticket-ordered blocks in
that order), and the first HTTP 200 short-circuits: if the combination at
zero-based index k is the first to answer 200, the exchange returns that
combination after exactly k + 1 requests. -/
theorem exchange_order_and_short_circuit (oracle : Nat → Nat) (dec : Bytes)
    (raw : Option Bytes) (k : Nat)
    (hk : k < (xblCombos dec raw).length)
    (h200 : oracle k = 200)
    (hbefore : ∀ j < k, oracle j ≠ 200) :
    (xblCombos dec raw =
      (candidateTickets dec raw).map
          (fun p => ⟨"http://auth.xboxlive.com", true, p.1, p.2⟩) ++
        (candidateTickets dec raw).map
          (fun p => ⟨"http://auth.xboxlive.com", false, p.1, p.2⟩) ++
        (candidateTickets dec raw).map
          (fun p => ⟨"https://auth.xboxlive.com", true, p.1, p.2⟩) ++
        (candidateTickets dec raw).map
          (fun p => ⟨"https://auth.xboxlive.com", false, p.1, p.2⟩)) ∧
    ∃ c, (xblCombos dec raw)[k]? = some c ∧
      xbl_user_authenticate oracle dec raw = .success (k + 1) c := by
  constructor
  · simp [xblCombos, relying_parties]
  · obtain ⟨c, hc, hrun⟩ := xblLoop_success oracle (xblCombos dec raw) k 0 []
      hk (by simpa using h200) (by simpa using hbefore)
    exact ⟨c, hc, by simpa using hrun⟩

theorem exchange_order_and_short_circuit_w :
    6 < (xblCombos [97] none).length ∧
    (∃ c, (xblCombos [97] none)[6]? = some c ∧
      xbl_user_authenticate (fun n => if n = 6 then 200 else 401) [97] none =
        .success 7 c) :=
  ⟨by decide,
    (exchange_order_and_short_circuit (fun n => if n = 6 then 200 else 401)
      [97] none 6 (by decide) (by decide) (by decide)).2⟩

/-- C9: when no combination answers 200 the exchange records one attempt per
combination, in request order, each carrying its candidate label, relying
party, header flag and status; the raised digest is the first twelve attempts
(bounded by twelve), and whenever at least one attempt was made the digest
contains an attempt whose status is a really-returned status code. -/
theorem exchange_exhaustion_reporting (oracle : Nat → Nat) (dec : Bytes)
    (raw : Option Bytes)
    (hfail : ∀ j < (xblCombos dec raw).length, oracle j ≠ 200) :
    xbl_user_authenticate oracle dec raw =
      .failure (attemptsFrom oracle 0 (xblCombos dec raw))
        ((attemptsFrom oracle 0 (xblCombos dec raw)).take 12) ∧
    (attemptsFrom oracle 0 (xblCombos dec raw)).length =
      (xblCombos dec raw).length ∧
    (∀ i c, (xblCombos dec raw)[i]? = some c →
      (attemptsFrom oracle 0 (xblCombos dec raw))[i]? =
        some (mkAttempt c (oracle i))) ∧
    ((attemptsFrom oracle 0 (xblCombos dec raw)).take 12).length ≤ 12 ∧
    (xblCombos dec raw ≠ [] →
      ∃ a ∈ (attemptsFrom oracle 0 (xblCombos dec raw)).take 12,
        ∃ j < (xblCombos dec raw).length, a.status = oracle j) := by
  refine ⟨?_, attemptsFrom_length oracle _ 0, ?_, ?_, ?_⟩
  · have := xblLoop_failure oracle (xblCombos dec raw) 0 []
      (by simpa using hfail)
    simpa [xbl_user_authenticate] using this
  · intro i c hc
    simpa using attemptsFrom_get oracle (xblCombos dec raw) 0 i c hc
  · exact List.length_take_le 12 _
  · intro hne
    obtain ⟨c, rest, hcr⟩ := List.exists_cons_of_ne_nil hne
    refine ⟨mkAttempt c (oracle 0), ?_, 0, by simp [hcr], ?_⟩
    · rw [hcr]
      simp [attemptsFrom]
    · rfl

theorem exchange_exhaustion_reporting_w :
    (∀ j < (xblCombos [97] none).length, (fun _ => 401 : Nat → Nat) j ≠ 200) ∧
    xbl_user_authenticate (fun _ => 401) [97] none =
      .failure (attemptsFrom (fun _ => 401) 0 (xblCombos [97] none))
        ((attemptsFrom (fun _ => 401) 0 (xblCombos [97] none)).take 12) :=
  ⟨by decide,
    (exchange_exhaustion_reporting (fun _ => 401) [97] none (by decide)).1⟩

/-- TokenSet dataclass from ms_oauth_cache.py; every field is optional in the
source (expires_at is an absolute unix-seconds integer). -/
structure TokenSet where
  access_token : Option String
  refresh_token : Option String
  id_token : Option String
  expires_at : Option Nat
  scope : Option String
  token_type : Option String
deriving DecidableEq

/-- JSON object with exactly the six TokenSet keys, as produced by to_json and
persisted in the cache file; json.dumps followed by json.loads preserves these
string, integer and null values exactly. -/
structure TokenJson where
  access_token : Option String
  refresh_token : Option String
  id_token : Option String
  expires_at : Option Nat
  scope : Option String
  token_type : Option String
deriving DecidableEq

/-- TokenSet.from_json: read each field with d.get, absent keys become None. -/
def TokenSet.from_json (d : TokenJson) : TokenSet :=
  ⟨d.access_token, d.refresh_token, d.id_token, d.expires_at, d.scope,
   d.token_type⟩

/-- TokenSet.to_json: emit the six fields under their own keys. -/
def TokenSet.to_json (t : TokenSet) : TokenJson :=
  ⟨t.access_token, t.refresh_token, t.id_token, t.expires_at, t.scope,
   t.token_type⟩

/-- States a cache file can be in when load_cache runs: path missing,
read_text raising, json.loads failing on the content, or a parsed object. -/
inductive CacheFile where
  | missing
  | unreadable
  | malformed
  | valid (d : TokenJson)
deriving DecidableEq

/-- load_cache: a missing path returns None; a raising read or parse is caught
and returns None (the function is total and never propagates an exception);
otherwise the parsed object becomes a TokenSet. -/
def load_cache : CacheFile → Option TokenSet
  | .valid d => some (TokenSet.from_json d)
  | _ => none

/-- save_cache: write to_json of the token set (through the atomic temp-file
rename of _write_secure), leaving the cache file in the parsed-object state. -/
def save_cache (tok : TokenSet) : CacheFile := .valid tok.to_json

/-- Python truthiness for an optional string: None and the empty string are
falsy. -/
def pyTruthy : Option String → Bool
  | none => false
  | some s => s != ""

/-- Python `x or y` on optional strings: a falsy left operand (absent or
empty) yields the right operand unchanged. -/
def pyOrStr (a b : Option String) : Option String :=
  if pyTruthy a then a else b

/-- is_access_token_valid with its 60 second skew: falsy access_token or
falsy (absent or zero) expires_at is invalid, otherwise valid exactly when
now + skew is strictly below expires_at. -/
def is_access_token_valid (now : Nat) (tok : TokenSet) (skew_seconds : Nat) : Bool :=
  if pyTruthy tok.access_token then
    match tok.expires_at with
    | none => false
    | some e => if e = 0 then false else decide (now + skew_seconds < e)
  else false

/-- JSON body of a 200 token-endpoint response (device-code or refresh
grant); each field read with t.get. -/
structure TokenResponse where
  access_token : Option String
  refresh_token : Option String
  id_token : Option String
  scope : Option String
  token_type : Option String
  expires_in : Option Nat
deriving DecidableEq

/-- The new TokenSet built by refresh on success: provider fields preferred,
with Python or fallbacks to the prior token for refresh_token, id_token,
scope and token_type; expires_at is now plus the returned expires_in
(defaulting to 3600). -/
def refreshTokenSet (now : Nat) (tok : TokenSet) (t : TokenResponse) : TokenSet :=
  { access_token := t.access_token
    refresh_token := pyOrStr t.refresh_token tok.refresh_token
    id_token := pyOrStr t.id_token tok.id_token
    expires_at := some (now + t.expires_in.getD 3600)
    scope := pyOrStr t.scope tok.scope
    token_type := pyOrStr t.token_type tok.token_type }

/-- refresh from ms_oauth_cache.py: raise when the stored refresh token is
falsy; issue a single request and raise on any non-200 status without
retrying; on 200 build the new TokenSet (which is then saved) and return it.
status is the HTTP status of the one response, body its parsed JSON. -/
def refresh (now : Nat) (tok : TokenSet) (status : Nat) (body : TokenResponse) :
    Except String TokenSet :=
  if pyTruthy tok.refresh_token then
    if status = 200 then .ok (refreshTokenSet now tok body)
    else .error "Refresh failed"
  else .error "No refresh_token in cache; need interactive device login."

/-- Provenance values returned by get_token. -/
inductive Mode where
  | cached_access
  | refreshed
  | device_login
deriving DecidableEq

/-- get_token from ms_oauth_cache.py: use the cached token when valid, else
attempt refresh when a truthy refresh token exists (any refresh exception
falls through), else run the interactive device-code login, whose resulting
TokenSet is supplied here as devTok. -/
def get_token (file : CacheFile) (now : Nat) (rstatus : Nat)
    (rbody : TokenResponse) (devTok : TokenSet) : TokenSet × Mode :=
  match load_cache file with
  | some tok =>
    if is_access_token_valid now tok 60 then (tok, .cached_access)
    else if pyTruthy tok.refresh_token then
      match refresh now tok rstatus rbody with
      | .ok t => (t, .refreshed)
      | .error _ => (devTok, .device_login)
    else (devTok, .device_login)
  | none => (devTok, .device_login)

/-- C7: the cache round-trips: from_json is a left inverse of to_json, so
saving a TokenSet and loading the cache returns it unchanged in all six
fields. -/
theorem cache_round_trip (t : TokenSet) :
    TokenSet.from_json (TokenSet.to_json t) = t ∧
    load_cache (save_cache t) = some t :=
  ⟨rfl, rfl⟩

/-- C8: load_cache returns None (never an exception, being total) on a
missing, unreadable or malformed cache file, and in each of those states the
credential pipeline proceeds to the interactive device-code login instead of
failing. -/
theorem load_cache_degrades_to_absent (now rstatus : Nat)
    (rbody : TokenResponse) (devTok : TokenSet) :
    load_cache .missing = none ∧
    load_cache .unreadable = none ∧
    load_cache .malformed = none ∧
    get_token .missing now rstatus rbody devTok = (devTok, .device_login) ∧
    get_token .unreadable now rstatus rbody devTok = (devTok, .device_login) ∧
    get_token .malformed now rstatus rbody devTok = (devTok, .device_login) :=
  ⟨rfl, rfl, rfl, rfl, rfl, rfl⟩

/-- C6 counterexample: a 200 refresh response whose refresh_token is present
but the empty string is falsy in Python, so the constructed TokenSet keeps
the prior refresh token instead of the provider-returned value, although the
provider did not omit the field. -/
theorem refresh_present_empty_field_counterexample :
    refresh 0 ⟨some "a", some "old", none, some 5, none, none⟩ 200
        ⟨some "n", some "", none, none, none, none⟩ =
      .ok ⟨some "n", some "old", none, some 3600, none, none⟩ ∧
    (⟨some "n", some "old", none, some 3600, none, none⟩ : TokenSet).refresh_token ≠
      some "" := by
  constructor
  · rfl
  · simp

/-- C6 amended: on a 200 response the new TokenSet uses the provider-returned
refresh_token, id_token, scope and token_type when present and non-empty
(Python truthiness), and falls back per-field to the prior value when the
provider omits the field; in particular an omitted refresh_token leaves the
prior refresh token unchanged; any non-200 response raises without retrying. -/
theorem refresh_field_fallback (now : Nat) (tok : TokenSet) (status : Nat)
    (body : TokenResponse) :
    (status ≠ 200 → pyTruthy tok.refresh_token = true →
      refresh now tok status body = .error "Refresh failed") ∧
    (pyTruthy tok.refresh_token = true → status = 200 →
      refresh now tok status body = .ok (refreshTokenSet now tok body) ∧
      (body.refresh_token = none →
        (refreshTokenSet now tok body).refresh_token = tok.refresh_token) ∧
      (pyTruthy body.refresh_token = true →
        (refreshTokenSet now tok body).refresh_token = body.refresh_token) ∧
      (body.id_token = none →
        (refreshTokenSet now tok body).id_token = tok.id_token) ∧
      (pyTruthy body.id_token = true →
        (refreshTokenSet now tok body).id_token = body.id_token) ∧
      (body.scope = none → (refreshTokenSet now tok body).scope = tok.scope) ∧
      (pyTruthy body.scope = true →
        (refreshTokenSet now tok body).scope = body.scope) ∧
      (body.token_type = none →
        (refreshTokenSet now tok body).token_type = tok.token_type) ∧
      (pyTruthy body.token_type = true →
        (refreshTokenSet now tok body).token_type = body.token_type)) := by
  constructor
  · intro hst htr
    rw [refresh, if_pos htr, if_neg hst]
  · intro htr hst
    refine ⟨by rw [refresh, if_pos htr, if_pos hst], ?_, ?_, ?_, ?_, ?_, ?_, ?_, ?_⟩
    · intro h; simp [refreshTokenSet, pyOrStr, h, pyTruthy]
    · intro h; simp [refreshTokenSet, pyOrStr, h]
    · intro h; simp [refreshTokenSet, pyOrStr, h, pyTruthy]
    · intro h; simp [refreshTokenSet, pyOrStr, h]
    · intro h; simp [refreshTokenSet, pyOrStr, h, pyTruthy]
    · intro h; simp [refreshTokenSet, pyOrStr, h]
    · intro h; simp [refreshTokenSet, pyOrStr, h, pyTruthy]
    · intro h; simp [refreshTokenSet, pyOrStr, h]

theorem refresh_field_fallback_w :
    pyTruthy (some "old") = true ∧
    refresh 7 ⟨some "a", some "old", none, some 5, none, none⟩ 200
        ⟨some "n", none, none, none, none, some 100⟩ =
      .ok (refreshTokenSet 7 ⟨some "a", some "old", none, some 5, none, none⟩
        ⟨some "n", none, none, none, none, some 100⟩) ∧
    (refreshTokenSet 7 ⟨some "a", some "old", none, some 5, none, none⟩
        ⟨some "n", none, none, none, none, some 100⟩).refresh_token = some "old" :=
  ⟨by decide,
    ((refresh_field_fallback 7 ⟨some "a", some "old", none, some 5, none, none⟩
      200 ⟨some "n", none, none, none, none, some 100⟩).2 (by decide) rfl).1,
    ((refresh_field_fallback 7 ⟨some "a", some "old", none, some 5, none, none⟩
      200 ⟨some "n", none, none, none, none, some 100⟩).2 (by decide) rfl).2.1 rfl⟩

/-- C5 counterexample: with an expired cached token holding a refresh token,
a successful refresh whose response grants only 30 seconds of lifetime is
returned as refreshed even though its remaining lifetime (30 seconds) is
below the 60 second safety margin and the interactive path was available. -/
theorem acquire_margin_counterexample :
    get_token (.valid ⟨some "a", some "r", none, some 10, none, none⟩) 100 200
        ⟨some "n", none, none, none, none, some 30⟩
        ⟨some "d", none, none, some 100000, none, none⟩ =
      (⟨some "n", some "r", none, some 130, none, none⟩, .refreshed) ∧
    ¬ (100 + 60 < (130 : Nat)) := by
  constructor
  · rfl
  · decide

theorem is_access_token_valid_lt (now skew : Nat) (tok : TokenSet)
    (h : is_access_token_valid now tok skew = true) :
    now + skew < tok.expires_at.getD 0 := by
  unfold is_access_token_valid at h
  split at h
  · rcases htok : tok.expires_at with _ | e
    · rw [htok] at h
      have h2 : false = true := h
      simp at h2
    · rw [htok] at h
      simp only [Option.getD_some]
      have h2 : (if e = 0 then false else decide (now + skew < e)) = true := h
      split at h2
      · simp at h2
      · exact of_decide_eq_true h2
  · have h2 : false = true := h
    simp at h2

/-- C5 amended: get_token tries, in order, the cached token (returned with
cached provenance exactly when present and valid beyond the 60 second
margin), then refresh (refreshed provenance on a 200 response), then the
interactive device-code login on a missing cache, falsy refresh token or
refresh failure; the margin guarantee holds for the cached path: a token
returned with cached provenance always has remaining lifetime above 60
seconds, while refreshed and interactive tokens carry whatever lifetime the
provider granted. -/
theorem acquire_policy_order (file : CacheFile) (now rstatus : Nat)
    (rbody : TokenResponse) (devTok : TokenSet) :
    (∀ tok, load_cache file = some tok →
      is_access_token_valid now tok 60 = true →
      get_token file now rstatus rbody devTok = (tok, .cached_access)) ∧
    (∀ tok, load_cache file = some tok →
      is_access_token_valid now tok 60 = false →
      pyTruthy tok.refresh_token = true → rstatus = 200 →
      get_token file now rstatus rbody devTok =
        (refreshTokenSet now tok rbody, .refreshed)) ∧
    (load_cache file = none →
      get_token file now rstatus rbody devTok = (devTok, .device_login)) ∧
    (∀ tok, load_cache file = some tok →
      is_access_token_valid now tok 60 = false →
      pyTruthy tok.refresh_token = false →
      get_token file now rstatus rbody devTok = (devTok, .device_login)) ∧
    (∀ tok, load_cache file = some tok →
      is_access_token_valid now tok 60 = false →
      pyTruthy tok.refresh_token = true → rstatus ≠ 200 →
      get_token file now rstatus rbody devTok = (devTok, .device_login)) ∧
    ((get_token file now rstatus rbody devTok).2 = .cached_access →
      ∃ tok, load_cache file = some tok ∧
        (get_token file now rstatus rbody devTok).1 = tok ∧
        now + 60 < tok.expires_at.getD 0) := by
  refine ⟨?_, ?_, ?_, ?_, ?_, ?_⟩
  · intro tok hload hvalid
    rw [get_token, hload]
    simp [hvalid]
  · intro tok hload hvalid htr hst
    rw [get_token, hload]
    simp only [hvalid, Bool.false_eq_true, if_false, htr, if_true]
    rw [refresh, if_pos htr, if_pos hst]
  · intro hload
    rw [get_token, hload]
  · intro tok hload hvalid htr
    rw [get_token, hload]
    simp [hvalid, htr]
  · intro tok hload hvalid htr hst
    rw [get_token, hload]
    simp only [hvalid, Bool.false_eq_true, if_false, htr, if_true]
    rw [refresh, if_pos htr, if_neg hst]
  · intro hmode
    rcases hload : load_cache file with _ | tok
    · rw [get_token, hload] at hmode
      simp at hmode
    · by_cases hvalid : is_access_token_valid now tok 60
      · refine ⟨tok, rfl, ?_, ?_⟩
        · rw [get_token, hload]
          simp [hvalid]
        · exact is_access_token_valid_lt now 60 tok hvalid
      · exfalso
        rw [get_token, hload] at hmode
        simp only [hvalid, Bool.false_eq_true, if_false] at hmode
        by_cases htr : pyTruthy tok.refresh_token
        · simp only [htr, if_true] at hmode
          rcases href : refresh now tok rstatus rbody with e | t
          · rw [href] at hmode
            simp at hmode
          · rw [href] at hmode
            simp at hmode
        · simp [htr] at hmode

theorem acquire_policy_order_w :
    load_cache (.valid ⟨some "a", some "r", none, some 1000, none, none⟩) =
      some ⟨some "a", some "r", none, some 1000, none, none⟩ ∧
    is_access_token_valid 0 ⟨some "a", some "r", none, some 1000, none, none⟩ 60 =
      true ∧
    get_token (.valid ⟨some "a", some "r", none, some 1000, none, none⟩) 0 200
        ⟨none, none, none, none, none, none⟩ ⟨none, none, none, none, none, none⟩ =
      (⟨some "a", some "r", none, some 1000, none, none⟩, .cached_access) :=
  ⟨rfl, by decide,
    (acquire_policy_order (.valid ⟨some "a", some "r", none, some 1000, none, none⟩)
      0 200 ⟨none, none, none, none, none, none⟩
      ⟨none, none, none, none, none, none⟩).1
      ⟨some "a", some "r", none, some 1000, none, none⟩ rfl (by decide)⟩

/-- A token-endpoint poll response: HTTP 200 with a parsed token body, or the
error code carried by the JSON body of a non-200 response. -/
inductive TokenResp where
  | ok (body : TokenResponse)
  | err (code : String)
deriving DecidableEq

/-- The TokenSet built on a 200 device-code poll: plain t.get for each field
and expires_at = now + expires_in (defaulting to 3600). -/
def deviceTokenSet (now : Nat) (t : TokenResponse) : TokenSet :=
  ⟨t.access_token, t.refresh_token, t.id_token,
   some (now + t.expires_in.getD 3600), t.scope, t.token_type⟩

/-- Terminal outcomes of device_code_login: a token (authorized), a raised
RuntimeError for a non-recoverable error code (denied), or the raised
TimeoutError after the deadline (expired). -/
inductive DeviceResult where
  | authorized (tok : TokenSet)
  | denied (code : String)
  | expired
deriving DecidableEq

/-- Trace of one run of a poll loop: the terminal result (none when the given
fuel bound is insufficient to reach one), the sleep durations used in order,
and the wall-clock time at loop exit (time advances only by sleeping). -/
structure PollTrace where
  result : Option DeviceResult
  sleeps : List Nat
  endTime : Nat
deriving DecidableEq

/-- The device_code_login poll loop of ms_oauth_cache.py: while now is before
the deadline, sleep interval then poll; a 200 returns the token (authorized),
authorization_pending continues unchanged, slow_down continues with the
interval permanently increased by 5, any other error code raises (denied);
leaving the loop at the deadline raises TimeoutError (expired).  The oracle
gives the n-th poll response; fuel bounds the modelled iterations. -/
def devicePoll (oracle : Nat → TokenResp) (deadline : Nat) :
    Nat → Nat → Nat → Nat → PollTrace
  | 0, t, _, _ => ⟨none, [], t⟩
  | fuel + 1, t, interval, n =>
    if t < deadline then
      match oracle n with
      | .ok body =>
        ⟨some (.authorized (deviceTokenSet (t + interval) body)), [interval],
         t + interval⟩
      | .err code =>
        if code = "authorization_pending" then
          let r := devicePoll oracle deadline fuel (t + interval) interval (n + 1)
          ⟨r.result, interval :: r.sleeps, r.endTime⟩
        else if code = "slow_down" then
          let r := devicePoll oracle deadline fuel (t + interval) (interval + 5) (n + 1)
          ⟨r.result, interval :: r.sleeps, r.endTime⟩
        else ⟨some (.denied code), [interval], t + interval⟩
    else ⟨some .expired, [], t⟩

theorem devicePoll_ok (oracle : Nat → TokenResp) (deadline fuel t interval n : Nat)
    (body : TokenResponse) (ht : t < deadline) (ho : oracle n = .ok body) :
    devicePoll oracle deadline (fuel + 1) t interval n =
      ⟨some (.authorized (deviceTokenSet (t + interval) body)), [interval],
       t + interval⟩ := by
  simp [devicePoll, ht, ho]

theorem devicePoll_pending (oracle : Nat → TokenResp) (deadline fuel t interval n : Nat)
    (ht : t < deadline) (ho : oracle n = .err "authorization_pending") :
    devicePoll oracle deadline (fuel + 1) t interval n =
      ⟨(devicePoll oracle deadline fuel (t + interval) interval (n + 1)).result,
       interval :: (devicePoll oracle deadline fuel (t + interval) interval (n + 1)).sleeps,
       (devicePoll oracle deadline fuel (t + interval) interval (n + 1)).endTime⟩ := by
  simp [devicePoll, ht, ho]

theorem devicePoll_slow (oracle : Nat → TokenResp) (deadline fuel t interval n : Nat)
    (ht : t < deadline) (ho : oracle n = .err "slow_down") :
    devicePoll oracle deadline (fuel + 1) t interval n =
      ⟨(devicePoll oracle deadline fuel (t + interval) (interval + 5) (n + 1)).result,
       interval ::
         (devicePoll oracle deadline fuel (t + interval) (interval + 5) (n + 1)).sleeps,
       (devicePoll oracle deadline fuel (t + interval) (interval + 5) (n + 1)).endTime⟩ := by
  simp [devicePoll, ht, ho]

theorem devicePoll_denied (oracle : Nat → TokenResp) (deadline fuel t interval n : Nat)
    (code : String) (ht : t < deadline) (ho : oracle n = .err code)
    (h1 : code ≠ "authorization_pending") (h2 : code ≠ "slow_down") :
    devicePoll oracle deadline (fuel + 1) t interval n =
      ⟨some (.denied code), [interval], t + interval⟩ := by
  simp [devicePoll, ht, ho, h1, h2]

theorem devicePoll_expired (oracle : Nat → TokenResp) (deadline fuel t interval n : Nat)
    (ht : ¬ t < deadline) :
    devicePoll oracle deadline (fuel + 1) t interval n = ⟨some .expired, [], t⟩ := by
  simp [devicePoll, ht]

theorem devicePoll_sleeps_ge (oracle : Nat → TokenResp) (deadline : Nat) :
    ∀ (fuel t interval n : Nat),
      ∀ x ∈ (devicePoll oracle deadline fuel t interval n).sleeps, interval ≤ x := by
  intro fuel
  induction fuel with
  | zero => intro t interval n x hx; simp [devicePoll] at hx
  | succ f ih =>
    intro t interval n x hx
    by_cases ht : t < deadline
    · rcases ho : oracle n with body | code
      · rw [devicePoll_ok oracle deadline f t interval n body ht ho] at hx
        simp at hx
        omega
      · by_cases hp : code = "authorization_pending"
        · subst hp
          rw [devicePoll_pending oracle deadline f t interval n ht ho] at hx
          rcases List.mem_cons.1 hx with rfl | hx
          · exact le_refl x
          · exact ih (t + interval) interval (n + 1) x hx
        · by_cases hs : code = "slow_down"
          · subst hs
            rw [devicePoll_slow oracle deadline f t interval n ht ho] at hx
            rcases List.mem_cons.1 hx with rfl | hx
            · exact le_refl x
            · exact le_trans (Nat.le_add_right interval 5)
                (ih (t + interval) (interval + 5) (n + 1) x hx)
          · rw [devicePoll_denied oracle deadline f t interval n code ht ho hp hs] at hx
            simp at hx
            omega
    · rw [devicePoll_expired oracle deadline f t interval n ht] at hx
      simp at hx

theorem getD_mem_of_lt : ∀ (l : List Nat) (i : Nat), i < l.length → l.getD i 0 ∈ l := by
  intro l
  induction l with
  | nil => intro i hi; simp at hi
  | cons a rest ih =>
    intro i hi
    match i with
    | 0 => simp
    | i + 1 =>
      simp only [List.getD_cons_succ]
      exact List.mem_cons_of_mem a (ih i (by simpa using hi))

theorem devicePoll_slow_down_permanent (oracle : Nat → TokenResp) (deadline : Nat) :
    ∀ (fuel t interval n : Nat),
      ((devicePoll oracle deadline fuel t interval n).sleeps.Pairwise (· ≤ ·)) ∧
      (∀ i j, i < j →
        j < (devicePoll oracle deadline fuel t interval n).sleeps.length →
        oracle (n + i) = .err "slow_down" →
        (devicePoll oracle deadline fuel t interval n).sleeps.getD i 0 + 5 ≤
          (devicePoll oracle deadline fuel t interval n).sleeps.getD j 0) := by
  intro fuel
  induction fuel with
  | zero =>
    intro t interval n
    constructor
    · simp [devicePoll]
    · intro i j hij hj ho
      simp [devicePoll] at hj
  | succ f ih =>
    intro t interval n
    by_cases ht : t < deadline
    · rcases ho : oracle n with body | code
      · rw [devicePoll_ok oracle deadline f t interval n body ht ho]
        constructor
        · simp
        · intro i j hij hj hsd
          simp at hj
          omega
      · by_cases hp : code = "authorization_pending"
        · subst hp
          rw [devicePoll_pending oracle deadline f t interval n ht ho]
          constructor
          · rw [List.pairwise_cons]
            exact ⟨fun b hb => devicePoll_sleeps_ge oracle deadline f
              (t + interval) interval (n + 1) b hb,
              (ih (t + interval) interval (n + 1)).1⟩
          · intro i j hij hj hsd
            obtain ⟨jp, rfl⟩ : ∃ jp, j = jp + 1 := ⟨j - 1, by omega⟩
            cases i with
            | zero =>
              rw [Nat.add_zero, ho] at hsd
              simp at hsd
            | succ ip =>
              simp only [List.getD_cons_succ]
              refine (ih (t + interval) interval (n + 1)).2 ip jp (by omega)
                (by simpa using hj) ?_
              rw [show n + 1 + ip = n + (ip + 1) by omega]
              exact hsd
        · by_cases hs : code = "slow_down"
          · subst hs
            rw [devicePoll_slow oracle deadline f t interval n ht ho]
            constructor
            · rw [List.pairwise_cons]
              exact ⟨fun b hb => le_trans (Nat.le_add_right interval 5)
                (devicePoll_sleeps_ge oracle deadline f (t + interval)
                  (interval + 5) (n + 1) b hb),
                (ih (t + interval) (interval + 5) (n + 1)).1⟩
            · intro i j hij hj hsd
              obtain ⟨jp, rfl⟩ : ∃ jp, j = jp + 1 := ⟨j - 1, by omega⟩
              cases i with
              | zero =>
                simp only [List.getD_cons_zero, List.getD_cons_succ]
                have hjp : jp < (devicePoll oracle deadline f (t + interval)
                    (interval + 5) (n + 1)).sleeps.length := by simpa using hj
                exact devicePoll_sleeps_ge oracle deadline f (t + interval)
                  (interval + 5) (n + 1) _ (getD_mem_of_lt _ jp hjp)
              | succ ip =>
                simp only [List.getD_cons_succ]
                refine (ih (t + interval) (interval + 5) (n + 1)).2 ip jp (by omega)
                  (by simpa using hj) ?_
                rw [show n + 1 + ip = n + (ip + 1) by omega]
                exact hsd
          · rw [devicePoll_denied oracle deadline f t interval n code ht ho hp hs]
            constructor
            · simp
            · intro i j hij hj hsd
              simp at hj
              omega
    · rw [devicePoll_expired oracle deadline f t interval n ht]
      constructor
      · simp
      · intro i j hij hj hsd
        simp at hj

/-- Terminal outcomes of the module-level poll loop in msal.py. -/
inductive MsalResult where
  | success
  | raisedError (code : String)
  | expired
deriving DecidableEq

/-- Trace of one run of the msal.py loop. -/
structure MsalTrace where
  result : Option MsalResult
  sleeps : List Nat
  endTime : Nat
deriving DecidableEq

/-- The module-level poll loop of msal.py: while now is before the deadline,
poll first; a 200 breaks out; authorization_pending or slow_down sleeps
interval plus 5 only when that response was slow_down and continues (the
interval variable itself is never changed); any other error raises; the
while-else raises TimeoutError. -/
def msalPoll (oracle : Nat → TokenResp) (deadline interval : Nat) :
    Nat → Nat → Nat → MsalTrace
  | 0, t, _ => ⟨none, [], t⟩
  | fuel + 1, t, n =>
    if t < deadline then
      match oracle n with
      | .ok _ => ⟨some .success, [], t⟩
      | .err code =>
        if code = "authorization_pending" ∨ code = "slow_down" then
          let s := interval + (if code = "slow_down" then 5 else 0)
          let r := msalPoll oracle deadline interval fuel (t + s) (n + 1)
          ⟨r.result, s :: r.sleeps, r.endTime⟩
        else ⟨some (.raisedError code), [], t⟩
    else ⟨some .expired, [], t⟩

theorem msalPoll_cont (oracle : Nat → TokenResp) (deadline interval fuel t n : Nat)
    (code : String) (ht : t < deadline) (ho : oracle n = .err code)
    (hc : code = "authorization_pending" ∨ code = "slow_down") :
    msalPoll oracle deadline interval (fuel + 1) t n =
      ⟨(msalPoll oracle deadline interval fuel
          (t + (interval + (if code = "slow_down" then 5 else 0))) (n + 1)).result,
       (interval + (if code = "slow_down" then 5 else 0)) ::
         (msalPoll oracle deadline interval fuel
           (t + (interval + (if code = "slow_down" then 5 else 0))) (n + 1)).sleeps,
       (msalPoll oracle deadline interval fuel
         (t + (interval + (if code = "slow_down" then 5 else 0))) (n + 1)).endTime⟩ := by
  simp [msalPoll, ht, ho, hc]

theorem msalPoll_sleeps_formula (oracle : Nat → TokenResp) (deadline interval : Nat) :
    ∀ (fuel t n i : Nat),
      i < (msalPoll oracle deadline interval fuel t n).sleeps.length →
      (msalPoll oracle deadline interval fuel t n).sleeps.getD i 0 =
        interval + (if oracle (n + i) = .err "slow_down" then 5 else 0) := by
  intro fuel
  induction fuel with
  | zero => intro t n i hi; simp [msalPoll] at hi
  | succ f ih =>
    intro t n i hi
    by_cases ht : t < deadline
    · rcases ho : oracle n with body | code
      · have hsl : (msalPoll oracle deadline interval (f + 1) t n).sleeps = [] := by
          simp [msalPoll, ht, ho]
        rw [hsl] at hi
        simp at hi
      · by_cases hc : code = "authorization_pending" ∨ code = "slow_down"
        · rw [msalPoll_cont oracle deadline interval f t n code ht ho hc] at hi ⊢
          cases i with
          | zero =>
            simp only [List.getD_cons_zero, Nat.add_zero, ho]
            simp [TokenResp.err.injEq]
          | succ ip =>
            simp only [List.getD_cons_succ]
            rw [ih (t + (interval + (if code = "slow_down" then 5 else 0))) (n + 1) ip
              (by simpa using hi)]
            rw [show n + 1 + ip = n + (ip + 1) by omega]
        · have hsl : (msalPoll oracle deadline interval (f + 1) t n).sleeps = [] := by
            simp [msalPoll, ht, ho, hc]
          rw [hsl] at hi
          simp at hi
    · have hsl : (msalPoll oracle deadline interval (f + 1) t n).sleeps = [] := by
        simp [msalPoll, ht]
      rw [hsl] at hi
      simp at hi

/-- C3 counterexample: in the msal.py module-level poll loop (one of the two
device-code poll loops the claim covers) the 5 second increase applies only
to the single sleep issued right after the slow_down response: with base
interval 5 and responses slow_down then authorization_pending the sleep
sequence is 10 then 5, so the poll after the slow_down sleeps less than the
pre-slow_down interval plus 5 and the sleep sequence decreases, refuting
permanence. -/
theorem slow_down_not_permanent_in_msal :
    (msalPoll (fun n => if n = 0 then TokenResp.err "slow_down"
        else TokenResp.err "authorization_pending") 12 5 10 0 0).sleeps = [10, 5] ∧
    ¬ (5 + 5 ≤ (msalPoll (fun n => if n = 0 then TokenResp.err "slow_down"
        else TokenResp.err "authorization_pending") 12 5 10 0 0).sleeps.getD 1 0) ∧
    ¬ ((msalPoll (fun n => if n = 0 then TokenResp.err "slow_down"
        else TokenResp.err "authorization_pending") 12 5 10 0 0).sleeps.getD 0 0 ≤
      (msalPoll (fun n => if n = 0 then TokenResp.err "slow_down"
        else TokenResp.err "authorization_pending") 12 5 10 0 0).sleeps.getD 1 0) := by
  have hsl : (msalPoll (fun n => if n = 0 then TokenResp.err "slow_down"
      else TokenResp.err "authorization_pending") 12 5 10 0 0).sleeps = [10, 5] := by
    decide
  refine ⟨hsl, ?_, ?_⟩ <;> rw [hsl] <;> decide

/-- C3 amended: in the device_code_login loop of ms_oauth_cache.py every
slow_down response permanently increases the interval by 5 seconds: the sleep
sequence of any execution never decreases and every poll after a slow_down
sleeps at least 5 seconds more than the sleep in effect at that slow_down;
in the msal.py module-level loop, by contrast, the increase is one-shot: the
sleep after poll i is exactly interval + 5 when response i was slow_down and
exactly the unchanged base interval otherwise. -/
theorem slow_down_backoff_semantics (oracle : Nat → TokenResp)
    (deadline fuel t0 interval n0 : Nat) :
    ((devicePoll oracle deadline fuel t0 interval n0).sleeps.Pairwise (· ≤ ·)) ∧
    (∀ i j, i < j →
      j < (devicePoll oracle deadline fuel t0 interval n0).sleeps.length →
      oracle (n0 + i) = .err "slow_down" →
      (devicePoll oracle deadline fuel t0 interval n0).sleeps.getD i 0 + 5 ≤
        (devicePoll oracle deadline fuel t0 interval n0).sleeps.getD j 0) ∧
    (∀ i, i < (msalPoll oracle deadline interval fuel t0 n0).sleeps.length →
      (msalPoll oracle deadline interval fuel t0 n0).sleeps.getD i 0 =
        interval + (if oracle (n0 + i) = .err "slow_down" then 5 else 0)) :=
  ⟨(devicePoll_slow_down_permanent oracle deadline fuel t0 interval n0).1,
   (devicePoll_slow_down_permanent oracle deadline fuel t0 interval n0).2,
   fun i => msalPoll_sleeps_formula oracle deadline interval fuel t0 n0 i⟩

theorem slow_down_backoff_semantics_w :
    (0 : Nat) < 1 ∧
    1 < (devicePoll (fun n => if n = 0 then TokenResp.err "slow_down"
        else TokenResp.err "authorization_pending") 30 10 0 5 0).sleeps.length ∧
    (fun n => if n = 0 then TokenResp.err "slow_down"
        else TokenResp.err "authorization_pending") (0 + 0) =
      TokenResp.err "slow_down" ∧
    (devicePoll (fun n => if n = 0 then TokenResp.err "slow_down"
        else TokenResp.err "authorization_pending") 30 10 0 5 0).sleeps.getD 0 0 + 5 ≤
      (devicePoll (fun n => if n = 0 then TokenResp.err "slow_down"
        else TokenResp.err "authorization_pending") 30 10 0 5 0).sleeps.getD 1 0 :=
  ⟨by decide, by decide, rfl,
    (slow_down_backoff_semantics (fun n => if n = 0 then TokenResp.err "slow_down"
        else TokenResp.err "authorization_pending") 30 10 0 5 0).2.1 0 1
      (by decide) (by decide) rfl⟩

/-- C4: with interval 5 and a 20 second expiry window, a token endpoint that
always answers authorization_pending makes device_code_login sleep 5 seconds
before each poll, perform exactly 4 = ceil(20 / 5) polls, and raise the
timeout error (a result distinct from the denial raised for other provider
error codes) exactly when wall-clock time reaches the deadline, i.e. within
20 to 25 seconds of the start. -/
theorem device_poll_always_pending_times_out (t0 : Nat) (oracle : Nat → TokenResp)
    (fuel : Nat) (hpend : ∀ n, oracle n = .err "authorization_pending")
    (hfuel : 5 ≤ fuel) :
    devicePoll oracle (t0 + 20) fuel t0 5 0 =
      ⟨some .expired, [5, 5, 5, 5], t0 + 20⟩ ∧
    (devicePoll oracle (t0 + 20) fuel t0 5 0).sleeps.length ≤ 4 ∧
    t0 + 20 ≤ (devicePoll oracle (t0 + 20) fuel t0 5 0).endTime ∧
    (devicePoll oracle (t0 + 20) fuel t0 5 0).endTime ≤ t0 + 25 ∧
    (∀ code tok, DeviceResult.expired ≠ DeviceResult.denied code ∧
      DeviceResult.expired ≠ DeviceResult.authorized tok) := by
  obtain ⟨f, rfl⟩ : ∃ f, fuel = f + 1 + 1 + 1 + 1 + 1 := ⟨fuel - 5, by omega⟩
  have h0 := devicePoll_pending oracle (t0 + 20) (f + 1 + 1 + 1 + 1) t0 5 0
    (by omega) (hpend 0)
  have h1 := devicePoll_pending oracle (t0 + 20) (f + 1 + 1 + 1) (t0 + 5) 5 1
    (by omega) (hpend 1)
  have h2 := devicePoll_pending oracle (t0 + 20) (f + 1 + 1) (t0 + 5 + 5) 5 2
    (by omega) (hpend 2)
  have h3 := devicePoll_pending oracle (t0 + 20) (f + 1) (t0 + 5 + 5 + 5) 5 3
    (by omega) (hpend 3)
  have h4 := devicePoll_expired oracle (t0 + 20) f (t0 + 5 + 5 + 5 + 5) 5 4
    (by omega)
  have hrun : devicePoll oracle (t0 + 20) (f + 1 + 1 + 1 + 1 + 1) t0 5 0 =
      ⟨some .expired, [5, 5, 5, 5], t0 + 5 + 5 + 5 + 5⟩ := by
    rw [h0, h1, h2, h3, h4]
  have h20 : t0 + 5 + 5 + 5 + 5 = t0 + 20 := by omega
  rw [h20] at hrun
  refine ⟨hrun, by rw [hrun]; simp, by rw [hrun],
    by rw [hrun]; show t0 + 20 ≤ t0 + 25; omega, ?_⟩
  intro code tok
  exact ⟨fun h => DeviceResult.noConfusion h, fun h => DeviceResult.noConfusion h⟩

theorem device_poll_always_pending_times_out_w :
    (∀ n, (fun (_ : Nat) => TokenResp.err "authorization_pending") n =
      TokenResp.err "authorization_pending") ∧
    (5 : Nat) ≤ 5 ∧
    devicePoll (fun (_ : Nat) => TokenResp.err "authorization_pending") (0 + 20) 5 0 5 0 =
      ⟨some .expired, [5, 5, 5, 5], 0 + 20⟩ :=
  ⟨fun _ => rfl, le_refl 5,
    (device_poll_always_pending_times_out 0
      (fun (_ : Nat) => TokenResp.err "authorization_pending") 5 (fun _ => rfl)
      (le_refl 5)).1⟩

end GameCompare
